import Mathlib

/-!
# Verification of the Large-Text-Processor chunk-processing pipeline

Shallow embedding of the core pipeline of the Large-Text-Processor
repository: the chunker (`utils/text_processing.py`), the retry decorator
(`utils/retry_decorator.py`), the cached provider dispatch
(`get_cached_response`, memoized by `st.cache_data` over all of its
arguments), the Anthropic provider adapter's response handling
(`providers/anthropic_provider.py`), and the per-file processing loop of
`streamlit_app.py` (split, per-chunk cached call with placeholder on
failure, newline merge).

Python integers are modelled as `Int`, fallible code as `Except`, and the
implicit invocation counting of a provider stub as a `Nat`-indexed
sequence of outcomes together with an explicit call counter.
-/

/-! ## Python string primitives -/

/-- Character class of Python `str.split()` with no argument: ASCII
whitespace (space, tab, newline, carriage return, vertical tab, form
feed).  Unicode whitespace beyond ASCII is not modelled. -/
def pyIsSpace (c : Char) : Bool :=
  c = ' ' || c = '\t' || c = '\n' || c = '\r' || c = Char.ofNat 11 || c = Char.ofNat 12

/-- Accumulator pass behind `pySplit`: scans the character list, growing
the current token in reverse in `tok`, emitting it at each whitespace run
boundary.  Mirrors Python `text.split()`: empty tokens are never
produced. -/
def pySplitAux : List Char → List Char → List String
  | [], [] => []
  | [], t :: ts => [String.mk (t :: ts).reverse]
  | c :: cs, tok =>
    if pyIsSpace c then
      match tok with
      | [] => pySplitAux cs []
      | t :: ts => String.mk (t :: ts).reverse :: pySplitAux cs []
    else pySplitAux cs (c :: tok)

/-- Python `text.split()` (whitespace split, dropping empty tokens). -/
def pySplit (s : String) : List String :=
  pySplitAux s.data []

/-- Python `sep.join(pieces)`: pieces interleaved with the separator,
empty string on an empty list. -/
def sjoin (sep : String) : List String → String
  | [] => ""
  | [x] => x
  | x :: y :: rest => x ++ sep ++ sjoin sep (y :: rest)

/-- Scanner behind `pySplitParas`: Python `text.split('\n\n')`, splitting
on each non-overlapping occurrence of two consecutive newlines, keeping
empty pieces (so the empty string yields `[""]`). -/
def splitParasAux : List Char → List Char → List String
  | '\n' :: '\n' :: cs, acc => String.mk acc.reverse :: splitParasAux cs []
  | c :: cs, acc => splitParasAux cs (c :: acc)
  | [], acc => [String.mk acc.reverse]

/-- Python `text.split('\n\n')`, the paragraph-mode splitter. -/
def pySplitParas (s : String) : List String :=
  splitParasAux s.data []

/-! ## Chunker (`utils/text_processing.py`, `split_text_into_chunks`) -/

/-- Grouping loop shared by the `words` and `sentences` branches of
`split_text_into_chunks`:

    for i in range(0, len(tokens), chunk_size):
        yield ' '.join(tokens[i:i + chunk_size])

`range` raises `ValueError` on a zero step (even for an empty token
list); a negative step over the range `0..len(tokens)` yields no indices,
hence no chunks; a positive step `s` yields the ceil(len/s) indices
`0, s, 2*s, ...`. -/
def split_groups (tokens : List String) (chunk_size : Int) : Except String (List String) :=
  if chunk_size = 0 then Except.error "range() arg 3 must not be zero"
  else if chunk_size < 0 then Except.ok []
  else
    Except.ok ((List.range ((tokens.length + chunk_size.toNat - 1) / chunk_size.toNat)).map
      (fun i => sjoin " " ((tokens.drop (i * chunk_size.toNat)).take chunk_size.toNat)))

/-- Embedding of `split_text_into_chunks(text, chunk_size, chunk_by)` with
the consumed generator's outcome made explicit as an `Except` (a raised
`ValueError` from `range` becomes an error value).  The external NLTK
`sent_tokenize` is abstracted as the parameter `sentTok`.  An unknown
`chunk_by` makes the generator body yield nothing. -/
def split_text_into_chunks (sentTok : String → List String) (text : String)
    (chunk_size : Int) (chunk_by : String) : Except String (List String) :=
  if chunk_by = "words" then split_groups (pySplit text) chunk_size
  else if chunk_by = "sentences" then split_groups (sentTok text) chunk_size
  else if chunk_by = "paragraphs" then Except.ok (pySplitParas text)
  else Except.ok []

/-- Stub sentence tokenizer used to instantiate claims whose inputs never
reach the `sentences` branch. -/
def sentTokStub : String → List String := fun _ => []


/-! ## Grouping lemmas for the words/sentences branch -/

/-- Fuel-indexed grouping of a list into runs of `s` elements, the
reference shape against which the index-based loop of `split_groups` is
proved equal.  Any fuel at least the list length (with `1 ≤ s`) computes
the full grouping. -/
def groupsOfAux (s : Nat) : Nat → List α → List (List α)
  | 0, _ => []
  | _ + 1, [] => []
  | fuel + 1, x :: xs => ((x :: xs).take s) :: groupsOfAux s fuel ((x :: xs).drop s)

/-- Grouping of a list into runs of `s` elements (last run possibly
shorter), with fuel fixed at the list length. -/
def groupsOf (s : Nat) (l : List α) : List (List α) :=
  groupsOfAux s l.length l

theorem groupsOfAux_of_nil (s fuel : Nat) : groupsOfAux s fuel ([] : List α) = [] := by
  cases fuel <;> rfl

theorem groupsOfAux_eq (s : Nat) (hs : 1 ≤ s) :
    ∀ (fuel : Nat) (l : List α), l.length ≤ fuel → groupsOfAux s fuel l = groupsOf s l := by
  intro fuel
  induction fuel using Nat.strong_induction_on with
  | _ fuel ih =>
    intro l hl
    match fuel, l with
    | _, [] => rw [groupsOfAux_of_nil]; rfl
    | fuel + 1, x :: xs =>
      have hdrop : ((x :: xs).drop s).length ≤ xs.length := by
        simp only [List.length_drop, List.length_cons]
        omega
      have hxs : xs.length ≤ fuel := by
        simp only [List.length_cons] at hl
        omega
      show _ :: groupsOfAux s fuel ((x :: xs).drop s)
          = _ :: groupsOfAux s xs.length ((x :: xs).drop s)
      rw [ih fuel (Nat.lt_succ_self fuel) _ (le_trans hdrop hxs),
        ih xs.length (Nat.lt_succ_of_le hxs) _ hdrop]

theorem groupsOf_nil (s : Nat) : groupsOf s ([] : List α) = [] := rfl

theorem groupsOf_cons (s : Nat) (hs : 1 ≤ s) (x : α) (xs : List α) :
    groupsOf s (x :: xs) = (x :: xs).take s :: groupsOf s ((x :: xs).drop s) := by
  show groupsOfAux s (xs.length + 1) (x :: xs) = _
  show _ :: groupsOfAux s xs.length ((x :: xs).drop s) = _
  congr 1
  apply groupsOfAux_eq s hs
  simp only [List.length_drop, List.length_cons]
  omega

theorem groupsOfAux_flatten (s : Nat) (hs : 1 ≤ s) :
    ∀ (fuel : Nat) (l : List α), l.length ≤ fuel → (groupsOfAux s fuel l).flatten = l := by
  intro fuel
  induction fuel with
  | zero =>
    intro l hl
    have : l = [] := List.eq_nil_of_length_eq_zero (Nat.le_zero.mp hl)
    subst this
    rfl
  | succ fuel ih =>
    intro l hl
    match l with
    | [] => rfl
    | x :: xs =>
      show ((x :: xs).take s ++ (groupsOfAux s fuel ((x :: xs).drop s)).flatten) = x :: xs
      rw [ih _ (by simp only [List.length_drop, List.length_cons]; simp only [List.length_cons] at hl; omega)]
      exact List.take_append_drop s (x :: xs)

/-- Flattening the grouping recovers the token list. -/
theorem groupsOf_flatten (s : Nat) (hs : 1 ≤ s) (l : List α) :
    (groupsOf s l).flatten = l :=
  groupsOfAux_flatten s hs l.length l le_rfl

theorem groupsOfAux_all (s : Nat) (hs : 1 ≤ s) :
    ∀ (fuel : Nat) (l : List α), l.length ≤ fuel →
      (groupsOfAux s fuel l).all (fun g => decide (g.length ≤ s) && !g.isEmpty) = true := by
  intro fuel
  induction fuel with
  | zero =>
    intro l hl
    have : l = [] := List.eq_nil_of_length_eq_zero (Nat.le_zero.mp hl)
    subst this
    rfl
  | succ fuel ih =>
    intro l hl
    match l with
    | [] => rfl
    | x :: xs =>
      show (((x :: xs).take s) :: groupsOfAux s fuel ((x :: xs).drop s)).all _ = true
      rw [List.all_cons]
      apply Bool.and_eq_true_iff.mpr
      constructor
      · apply Bool.and_eq_true_iff.mpr
        constructor
        · simp only [decide_eq_true_eq, List.length_take]
          omega
        · match s, hs with
          | s + 1, _ => rfl
      · exact ih _ (by simp only [List.length_drop, List.length_cons]; simp only [List.length_cons] at hl; omega)

/-- Every group has at most `s` elements and none is empty. -/
theorem groupsOf_all (s : Nat) (hs : 1 ≤ s) (l : List α) :
    (groupsOf s l).all (fun g => decide (g.length ≤ s) && !g.isEmpty) = true :=
  groupsOfAux_all s hs l.length l le_rfl

theorem groupsOfAux_dropLast (s : Nat) (hs : 1 ≤ s) :
    ∀ (fuel : Nat) (l : List α), l.length ≤ fuel →
      ((groupsOfAux s fuel l).dropLast).all (fun g => g.length == s) = true := by
  intro fuel
  induction fuel with
  | zero =>
    intro l hl
    have : l = [] := List.eq_nil_of_length_eq_zero (Nat.le_zero.mp hl)
    subst this
    rfl
  | succ fuel ih =>
    intro l hl
    match l with
    | [] => rfl
    | x :: xs =>
      show ((((x :: xs).take s) :: groupsOfAux s fuel ((x :: xs).drop s)).dropLast).all _ = true
      match hrest : groupsOfAux s fuel ((x :: xs).drop s) with
      | [] => rfl
      | g :: gs =>
        rw [List.dropLast_cons_of_ne_nil (by simp)]
        rw [List.all_cons]
        apply Bool.and_eq_true_iff.mpr
        constructor
        · have hdz : (x :: xs).drop s ≠ [] := by
            intro hnil
            rw [hnil, groupsOfAux_of_nil] at hrest
            exact List.noConfusion hrest
          have hlen : s < (x :: xs).length := by
            by_contra hle
            exact hdz (List.drop_eq_nil_of_le (Nat.le_of_not_lt hle))
          simp only [List.length_take, List.length_cons, beq_iff_eq]
          simp only [List.length_cons] at hlen
          omega
        · rw [← hrest]
          exact ih _ (by simp only [List.length_drop, List.length_cons]; simp only [List.length_cons] at hl; omega)

/-- Every group other than the last has exactly `s` elements. -/
theorem groupsOf_dropLast (s : Nat) (hs : 1 ≤ s) (l : List α) :
    ((groupsOf s l).dropLast).all (fun g => g.length == s) = true :=
  groupsOfAux_dropLast s hs l.length l le_rfl

/-- The index-based loop of `split_groups` produces exactly the groups of
`groupsOf`: index `i*s` selects the i-th run of `s` tokens. -/
theorem range_groups_eq_groupsOf (s : Nat) (hs : 1 ≤ s) (l : List α) :
    (List.range ((l.length + s - 1) / s)).map (fun i => (l.drop (i * s)).take s)
      = groupsOf s l := by
  match l with
  | [] =>
    have h0 : (0 + s - 1) / s = 0 := Nat.div_eq_of_lt (by omega)
    simp only [List.length_nil, h0, List.range_zero, List.map_nil]
    rfl
  | x :: xs =>
    classical
    by_cases hle : (x :: xs).length ≤ s
    · have h1 : ((x :: xs).length + s - 1) / s = 1 := by
        have hlen : 1 ≤ (x :: xs).length := by simp
        apply Nat.div_eq_of_lt_le
        · omega
        · omega
      rw [h1]
      have htake : (x :: xs).take s = x :: xs := List.take_of_length_le hle
      have hdropnil : (x :: xs).drop s = [] := List.drop_eq_nil_of_le hle
      rw [groupsOf_cons s hs, hdropnil, groupsOf_nil,
        show List.range 1 = [0] from rfl]
      simp
    · have hgt : s < (x :: xs).length := Nat.lt_of_not_le hle
      have hrec := range_groups_eq_groupsOf s hs ((x :: xs).drop s)
      have hdlen : ((x :: xs).drop s).length = (x :: xs).length - s := List.length_drop s (x :: xs)
      have hcount : ((x :: xs).length + s - 1) / s
          = (((x :: xs).length - s + s - 1) / s) + 1 := by
        have : (x :: xs).length + s - 1 = ((x :: xs).length - s + s - 1) + s := by omega
        rw [this, Nat.add_div_right _ hs]
      rw [hcount, List.range_succ_eq_map, List.map_cons, List.map_map]
      rw [groupsOf_cons s hs]
      congr 1
      · simp
      · rw [← hrec, hdlen]
        apply List.map_congr_left
        intro i hi
        simp only [Function.comp_apply]
        have : (i + 1) * s = s + i * s := by ring
        rw [this, ← List.drop_drop]
termination_by l.length
decreasing_by
  simp only [List.length_drop, List.length_cons]
  simp only [List.length_cons] at hgt
  omega

/-! ## Lemmas about Python `join` -/

theorem sjoin_cons (sep x : String) (y : String) (rest : List String) :
    sjoin sep (x :: y :: rest) = x ++ sep ++ sjoin sep (y :: rest) := rfl

theorem sjoin_append (sep : String) (a b : List String) (ha : a ≠ []) (hb : b ≠ []) :
    sjoin sep (a ++ b) = sjoin sep a ++ sep ++ sjoin sep b := by
  match a, b with
  | [x], y :: bs => rfl
  | x :: x2 :: as, y :: bs =>
    have ih := sjoin_append sep (x2 :: as) (y :: bs) (by simp) hb
    show x ++ sep ++ sjoin sep ((x2 :: as) ++ (y :: bs)) = _
    rw [ih, sjoin_cons]
    simp [String.append_assoc]

theorem flatten_ne_nil_of_head (g : List String) (gs : List (List String)) (hg : g ≠ []) :
    (g :: gs).flatten ≠ [] := by
  match g with
  | x :: xs => simp

/-- Joining the per-group joins equals joining the flattened groups, as
long as no group is empty (an empty group would contribute a spurious
separator). -/
theorem sjoin_map_flatten (sep : String) (gs : List (List String))
    (h : ∀ g ∈ gs, g ≠ []) :
    sjoin sep (gs.map (sjoin sep)) = sjoin sep gs.flatten := by
  match gs with
  | [] => rfl
  | [g] =>
    show sjoin sep [sjoin sep g] = sjoin sep (g ++ [])
    rw [List.append_nil]
    rfl
  | g :: g2 :: rest =>
    have hg : g ≠ [] := h g (by simp)
    have hrest : ∀ x ∈ g2 :: rest, x ≠ [] := fun x hx => h x (List.mem_cons_of_mem _ hx)
    have ih := sjoin_map_flatten sep (g2 :: rest) hrest
    have ih2 : sjoin sep (sjoin sep g2 :: List.map (sjoin sep) rest)
        = sjoin sep (g2 :: rest).flatten := by
      rw [← List.map_cons]
      exact ih
    show sjoin sep (sjoin sep g :: sjoin sep g2 :: (rest.map (sjoin sep))) = _
    rw [sjoin_cons, ih2]
    show _ = sjoin sep (g ++ (g2 :: rest).flatten)
    rw [sjoin_append sep g (g2 :: rest).flatten hg
      (flatten_ne_nil_of_head g2 rest (hrest g2 (by simp)))]

/-! ## Retry decorator (`utils/retry_decorator.py`) -/

/-- Loop body of `wrapper_retry`, structurally recursive on the remaining
iterations `rem = max_retries - retries`.  `retries` doubles as the
number of invocations already made, since the decorated function is
invoked exactly once per loop iteration; the n-th invocation's outcome is
`op n`.  An exception outside the decorator's `exceptions` tuple
(`retryable e = false`) propagates to the caller as `Except.error`;
exhaustion returns the in-band marker string.  The returned pair is
(outcome, total number of invocations). -/
def retry_go (retryable : ε → Bool) (op : Nat → Except ε String) :
    Nat → Nat → Except ε String × Nat
  | 0, retries => (Except.ok "[Failed to process this chunk.]", retries)
  | rem + 1, retries =>
    match op retries with
    | Except.ok v => (Except.ok v, retries + 1)
    | Except.error e =>
      if retryable e then
        if rem = 0 then (Except.ok "[Failed to process this chunk.]", retries + 1)
        else retry_go retryable op rem (retries + 1)
      else (Except.error e, retries + 1)

/-- Embedding of the decorator's `wrapper_retry` with instrumented
invocation count.  Sleeping and backoff bookkeeping (`initial_wait`,
`backoff_factor`) have no effect on the returned value or on the number
of invocations, and are elided. -/
def wrapper_retry (retryable : ε → Bool) (op : Nat → Except ε String)
    (max_retries : Nat) : Except ε String × Nat :=
  retry_go retryable op max_retries 0

theorem retry_go_all_fail (retryable : ε → Bool) (op : Nat → Except ε String)
    (hfail : ∀ n, ∃ e, op n = Except.error e ∧ retryable e = true) :
    ∀ (rem retries : Nat),
      retry_go retryable op rem retries
        = (Except.ok "[Failed to process this chunk.]", retries + rem) := by
  intro rem
  induction rem with
  | zero => intro retries; rfl
  | succ rem ih =>
    intro retries
    obtain ⟨e, he, hr⟩ := hfail retries
    show (match op retries with
      | Except.ok v => (Except.ok v, retries + 1)
      | Except.error e =>
        if retryable e then
          if rem = 0 then (Except.ok "[Failed to process this chunk.]", retries + 1)
          else retry_go retryable op rem (retries + 1)
        else (Except.error e, retries + 1)) = _
    rw [he]
    simp only [hr, if_true]
    by_cases h0 : rem = 0
    · subst h0; simp
    · rw [if_neg h0, ih (retries + 1)]
      congr 1
      omega

theorem retry_go_eventually_ok (retryable : ε → Bool) (op : Nat → Except ε String)
    (v : String) :
    ∀ (k rem retries : Nat), k < rem →
      (∀ j, j < k → ∃ e, op (retries + j) = Except.error e ∧ retryable e = true) →
      op (retries + k) = Except.ok v →
      retry_go retryable op rem retries = (Except.ok v, retries + k + 1) := by
  intro k
  induction k with
  | zero =>
    intro rem retries hk hfail hok
    match rem, hk with
    | rem + 1, _ =>
      show (match op retries with
        | Except.ok v => (Except.ok v, retries + 1)
        | Except.error e =>
          if retryable e then
            if rem = 0 then (Except.ok "[Failed to process this chunk.]", retries + 1)
            else retry_go retryable op rem (retries + 1)
          else (Except.error e, retries + 1)) = _
      rw [show retries + 0 = retries from rfl] at hok
      rw [hok]
  | succ k ih =>
    intro rem retries hk hfail hok
    match rem, hk with
    | rem + 1, _ =>
      obtain ⟨e, he, hr⟩ := hfail 0 (Nat.succ_pos k)
      rw [Nat.add_zero] at he
      show (match op retries with
        | Except.ok v => (Except.ok v, retries + 1)
        | Except.error e =>
          if retryable e then
            if rem = 0 then (Except.ok "[Failed to process this chunk.]", retries + 1)
            else retry_go retryable op rem (retries + 1)
          else (Except.error e, retries + 1)) = _
      rw [he]
      simp only [hr, if_true]
      have hkrem : k < rem := by omega
      have hrem0 : rem ≠ 0 := by omega
      rw [if_neg hrem0]
      rw [ih rem (retries + 1) hkrem
        (fun j hj => by
          have := hfail (j + 1) (by omega)
          rwa [show retries + (j + 1) = retries + 1 + j by omega] at this)
        (by rwa [show retries + 1 + k = retries + (k + 1) by omega])]
      congr 1
      omega

/-! ## Anthropic provider adapter (`providers/anthropic_provider.py`) -/

/-- Exception taxonomy visible inside `generate_with_anthropic`.  The
decorator is instantiated with `exceptions = ANTHROPIC_EXCEPTIONS =
(CurlError, HTTPError, ConnectionError, Timeout)`. -/
inductive AnthropicExc where
  | curlError : AnthropicExc
  | httpError : String → AnthropicExc
  | connectionError : AnthropicExc
  | timeout : AnthropicExc
  | valueError : String → AnthropicExc
  | osError : Int → AnthropicExc
deriving DecidableEq, Repr

/-- Membership in `ANTHROPIC_EXCEPTIONS`, the `exceptions` tuple the
retry decorator catches for this adapter. -/
def anthropic_retryable : AnthropicExc → Bool
  | AnthropicExc.curlError => true
  | AnthropicExc.httpError _ => true
  | AnthropicExc.connectionError => true
  | AnthropicExc.timeout => true
  | AnthropicExc.valueError _ => false
  | AnthropicExc.osError _ => false

/-- Shape of the HTTP response consumed by `generate_with_anthropic`:
status code, the optional `content` field (a list of text parts; `none`
for absent), and the fallback error message extracted from the body. -/
structure AnthropicResponse where
  status_code : Int
  content : Option (List String)
  error_message : String

/-- One un-retried invocation of `generate_with_anthropic`'s body on a
given HTTP response.  A 200 status with a present, non-empty (truthy)
`content` list joins the text parts; a falsy `content` raises
`ValueError("No content field in response.")` (re-raised unchanged by the
adapter's catch-all `except Exception` clause); 429 raises `HTTPError`
for rate limiting; any other status raises `HTTPError` with the body's
error message. -/
def generate_with_anthropic_once (resp : AnthropicResponse) : Except AnthropicExc String :=
  if resp.status_code = 200 then
    match resp.content with
    | some (t :: ts) => Except.ok (String.join (t :: ts))
    | _ => Except.error (AnthropicExc.valueError "No content field in response.")
  else if resp.status_code = 429 then
    Except.error (AnthropicExc.httpError "Anthropic rate limit exceeded. Please wait before retrying.")
  else
    Except.error (AnthropicExc.httpError ("Anthropic API error: " ++ resp.error_message))

/-- The retry-decorated `generate_with_anthropic` (`max_retries = 10`),
driven by the abstract sequence of HTTP responses the network returns on
successive invocations. -/
def generate_with_anthropic (responses : Nat → AnthropicResponse) :
    Except AnthropicExc String × Nat :=
  wrapper_retry anthropic_retryable
    (fun n => generate_with_anthropic_once (responses n)) 10

/-! ## Response cache and cached provider call (`get_cached_response`) -/

/-- The full argument tuple of `get_cached_response(provider_choice,
prompt, chunk, chunk_size, model_choice, api_keys)`.  `st.cache_data`
keys the memoized entry on every one of these parameters.  `api_keys` is
the Python dict, modelled as an association list. -/
structure CacheKey where
  provider_choice : String
  prompt : String
  chunk : String
  chunk_size : Int
  model_choice : Option String
  api_keys : List (String × String)
deriving DecidableEq, Repr

/-- Association-list lookup with the key equality `st.cache_data` uses
(equality of the whole argument tuple). -/
def cacheLookup (cache : List (CacheKey × String)) (k : CacheKey) : Option String :=
  match cache with
  | [] => none
  | (k2, v) :: rest => if k2 = k then some v else cacheLookup rest k

/-- Cache state: the memoized `(argument tuple, response)` entries. -/
def Cache := List (CacheKey × String)

/-- Embedding of the `st.cache_data`-decorated `get_cached_response`.  On
a hit, the stored response is returned and the body is not run.  On a
miss, the body runs: it concatenates `prompt + chunk` and dispatches on
`provider_choice` to one of the three provider adapters — abstracted as
`providerCall` applied to the provider choice and the combined prompt
(the model and credential plumbing, and the unsupported-provider
`ValueError`, live inside this abstraction).  A successful response is
stored under the full argument tuple; a raised exception is re-raised to
the caller and nothing is cached.  The third component counts how many
times the body (a provider computation) actually ran: 0 or 1. -/
def get_cached_response (providerCall : String → String → Except String String)
    (cache : List (CacheKey × String)) (k : CacheKey) :
    Except String String × List (CacheKey × String) × Nat :=
  match cacheLookup cache k with
  | some v => (Except.ok v, cache, 0)
  | none =>
    match providerCall k.provider_choice (k.prompt ++ k.chunk) with
    | Except.ok v => (Except.ok v, (k, v) :: cache, 1)
    | Except.error e => (Except.error e, cache, 1)

/-! ## Pipeline orchestrator (`streamlit_app.py` processing loop) -/

/-- The fully resolved settings the processing loop reads from the UI:
provider choice, edited prompt, chunk size and mode, model choice, and
the loaded environment credentials. -/
structure Settings where
  provider_choice : String
  prompt : String
  chunk_size : Int
  chunk_by : String
  model_choice : Option String
  api_keys : List (String × String)

/-- The argument tuple the processing loop passes to
`get_cached_response` for one chunk. -/
def mkKey (s : Settings) (chunk : String) : CacheKey :=
  ⟨s.provider_choice, s.prompt, chunk, s.chunk_size, s.model_choice, s.api_keys⟩

/-- Per-chunk loop of the orchestrator: for each chunk in order, call
`get_cached_response`; on a raised exception, substitute the placeholder
`"[Failed to process this chunk.]"`; append the response to the results
list and continue with the next chunk. -/
def process_chunks (providerCall : String → String → Except String String)
    (s : Settings) : List String → List (CacheKey × String) →
    List String × List (CacheKey × String)
  | [], cache => ([], cache)
  | chunk :: rest, cache =>
    let step := get_cached_response providerCall cache (mkKey s chunk)
    let response :=
      match step.1 with
      | Except.ok v => v
      | Except.error _ => "[Failed to process this chunk.]"
    let tail := process_chunks providerCall s rest step.2.1
    (response :: tail.1, tail.2)

/-- Per-file pipeline: split the file's text into chunks, process each
chunk in order, and merge the results with `"\n".join(results)`.  An
exception raised while consuming the chunk generator (only possible for
`chunk_size = 0`) propagates uncaught. -/
def process_file (providerCall : String → String → Except String String)
    (sentTok : String → List String) (s : Settings) (content : String)
    (cache : List (CacheKey × String)) :
    Except String (String × List (CacheKey × String)) :=
  match split_text_into_chunks sentTok content s.chunk_size s.chunk_by with
  | Except.error e => Except.error e
  | Except.ok chunks =>
    let pr := process_chunks providerCall s chunks cache
    Except.ok (sjoin "\n" pr.1, pr.2)

/-- Multi-file pipeline: files are processed in upload order, each
producing one merged output, with the response cache carried across
files. -/
def process_files (providerCall : String → String → Except String String)
    (sentTok : String → List String) (s : Settings) :
    List String → List (CacheKey × String) →
    Except String (List String × List (CacheKey × String))
  | [], cache => Except.ok ([], cache)
  | content :: rest, cache =>
    match process_file providerCall sentTok s content cache with
    | Except.error e => Except.error e
    | Except.ok mc =>
      match process_files providerCall sentTok s rest mc.2 with
      | Except.error e => Except.error e
      | Except.ok oc => Except.ok (mc.1 :: oc.1, oc.2)

/-- Number of merged per-file outputs, `none` when the pipeline aborted
with an uncaught exception. -/
def resultsLen (r : Except String (List String × List (CacheKey × String))) : Option Nat :=
  match r with
  | Except.ok oc => some oc.1.length
  | Except.error _ => none

/-- Per-chunk result under a deterministic provider: the provider's
response on `prompt + chunk`, or the placeholder if it raises. -/
def chunk_result (providerCall : String → String → Except String String)
    (s : Settings) (chunk : String) : String :=
  match providerCall s.provider_choice (s.prompt ++ chunk) with
  | Except.ok v => v
  | Except.error _ => "[Failed to process this chunk.]"

/-- Boolean success test for a consumed chunk generator. -/
def isOkB (r : Except String (List String)) : Bool :=
  match r with
  | Except.ok _ => true
  | Except.error _ => false

/-! ## Orchestrator lemmas -/

theorem split_groups_ok (tokens : List String) (chunk_size : Int) (h : chunk_size ≠ 0) :
    ∃ cs, split_groups tokens chunk_size = Except.ok cs := by
  unfold split_groups
  rw [if_neg h]
  by_cases hneg : chunk_size < 0
  · rw [if_pos hneg]; exact ⟨[], rfl⟩
  · rw [if_neg hneg]; exact ⟨_, rfl⟩

/-- Consuming the chunk generator raises no exception unless the mode is
`words` or `sentences` with a zero chunk size. -/
theorem split_ok (sentTok : String → List String) (text : String)
    (chunk_size : Int) (chunk_by : String)
    (h : chunk_size ≠ 0 ∨ (chunk_by ≠ "words" ∧ chunk_by ≠ "sentences")) :
    ∃ cs, split_text_into_chunks sentTok text chunk_size chunk_by = Except.ok cs := by
  unfold split_text_into_chunks
  by_cases hw : chunk_by = "words"
  · rw [if_pos hw]
    rcases h with h | h
    · exact split_groups_ok _ _ h
    · exact absurd hw h.1
  · rw [if_neg hw]
    by_cases hsnt : chunk_by = "sentences"
    · rw [if_pos hsnt]
      rcases h with h | h
      · exact split_groups_ok _ _ h
      · exact absurd hsnt h.2
    · rw [if_neg hsnt]
      by_cases hp : chunk_by = "paragraphs"
      · rw [if_pos hp]; exact ⟨_, rfl⟩
      · rw [if_neg hp]; exact ⟨[], rfl⟩

/-- The per-chunk loop produces exactly one result per chunk. -/
theorem process_chunks_length (providerCall : String → String → Except String String)
    (s : Settings) :
    ∀ (chunks : List String) (cache : List (CacheKey × String)),
      (process_chunks providerCall s chunks cache).1.length = chunks.length := by
  intro chunks
  induction chunks with
  | nil => intro cache; rfl
  | cons chunk rest ih =>
    intro cache
    show ((_ : String) :: (process_chunks providerCall s rest _).1).length = _
    simp only [List.length_cons, ih]

/-- A cache all of whose entries agree with the (deterministic) provider
is invisible: the per-chunk loop computes exactly the per-chunk results
of the provider, in chunk order. -/
theorem process_chunks_pure (providerCall : String → String → Except String String)
    (s : Settings) :
    ∀ (chunks : List String) (cache : List (CacheKey × String)),
      (∀ k v, cacheLookup cache k = some v →
        providerCall k.provider_choice (k.prompt ++ k.chunk) = Except.ok v) →
      (process_chunks providerCall s chunks cache).1
        = chunks.map (chunk_result providerCall s) := by
  intro chunks
  induction chunks with
  | nil => intro cache hcons; rfl
  | cons chunk rest ih =>
    intro cache hcons
    show (_ :: (process_chunks providerCall s rest _).1) = _
    unfold get_cached_response
    match hlk : cacheLookup cache (mkKey s chunk) with
    | some v =>
      have hv := hcons _ _ hlk
      simp only [List.map_cons, List.cons.injEq]
      constructor
      · show v = chunk_result providerCall s chunk
        unfold chunk_result
        rw [show (mkKey s chunk).provider_choice = s.provider_choice from rfl,
          show (mkKey s chunk).prompt = s.prompt from rfl,
          show (mkKey s chunk).chunk = chunk from rfl] at hv
        rw [hv]
      · exact ih cache hcons
    | none =>
      match hpc : providerCall (mkKey s chunk).provider_choice
          ((mkKey s chunk).prompt ++ (mkKey s chunk).chunk) with
      | Except.ok v =>
        simp only [List.map_cons, List.cons.injEq]
        constructor
        · show v = chunk_result providerCall s chunk
          unfold chunk_result
          rw [show (mkKey s chunk).provider_choice = s.provider_choice from rfl,
            show (mkKey s chunk).prompt = s.prompt from rfl,
            show (mkKey s chunk).chunk = chunk from rfl] at hpc
          rw [hpc]
        · apply ih
          intro k v2 hk2
          unfold cacheLookup at hk2
          by_cases hkeq : mkKey s chunk = k
          · rw [if_pos hkeq] at hk2
            cases hk2
            rw [← hkeq]
            exact hpc
          · rw [if_neg hkeq] at hk2
            exact hcons _ _ hk2
      | Except.error e =>
        simp only [List.map_cons, List.cons.injEq]
        constructor
        · show "[Failed to process this chunk.]" = chunk_result providerCall s chunk
          unfold chunk_result
          rw [show (mkKey s chunk).provider_choice = s.provider_choice from rfl,
            show (mkKey s chunk).prompt = s.prompt from rfl,
            show (mkKey s chunk).chunk = chunk from rfl] at hpc
          rw [hpc]
        · exact ih cache hcons

theorem process_file_eq (pc : String → String → Except String String)
    (sentTok : String → List String) (s : Settings) (content : String)
    (cache : List (CacheKey × String)) (chunks : List String)
    (hchunks : split_text_into_chunks sentTok content s.chunk_size s.chunk_by
      = Except.ok chunks) :
    process_file pc sentTok s content cache
      = Except.ok (sjoin "\n" (process_chunks pc s chunks cache).1,
          (process_chunks pc s chunks cache).2) := by
  unfold process_file
  rw [hchunks]

/-- With a nonzero chunk size the multi-file pipeline never aborts: it
produces exactly one merged output per uploaded file. -/
theorem process_files_ok (pc : String → String → Except String String)
    (sentTok : String → List String) (s : Settings) (hS : s.chunk_size ≠ 0) :
    ∀ (files : List String) (cache : List (CacheKey × String)),
      resultsLen (process_files pc sentTok s files cache) = some files.length := by
  intro files
  induction files with
  | nil => intro cache; rfl
  | cons content rest ih =>
    intro cache
    obtain ⟨chunks, hchunks⟩ := split_ok sentTok content s.chunk_size s.chunk_by (Or.inl hS)
    show resultsLen
      (match process_file pc sentTok s content cache with
       | Except.error e => Except.error e
       | Except.ok mc =>
         match process_files pc sentTok s rest mc.2 with
         | Except.error e => Except.error e
         | Except.ok oc => Except.ok (mc.1 :: oc.1, oc.2)) = _
    rw [process_file_eq pc sentTok s content cache chunks hchunks]
    have ih2 := ih (process_chunks pc s chunks cache).2
    show resultsLen
      (match process_files pc sentTok s rest (process_chunks pc s chunks cache).2 with
       | Except.error e => Except.error e
       | Except.ok oc =>
         Except.ok (sjoin "\n" (process_chunks pc s chunks cache).1 :: oc.1, oc.2))
      = some (rest.length + 1)
    cases h2 : process_files pc sentTok s rest (process_chunks pc s chunks cache).2 with
    | ok oc =>
      rw [h2] at ih2
      simp only [resultsLen, List.length_cons, Option.some.injEq] at ih2 ⊢
      omega
    | error e =>
      rw [h2] at ih2
      simp only [resultsLen] at ih2
      exact Option.noConfusion ih2

/-- A chunk whose provider computation raises (and whose key is not
pre-seeded in the incoming cache) contributes exactly the placeholder at
its own position of the results list. -/
theorem process_chunks_failed (pc : String → String → Except String String)
    (s : Settings) :
    ∀ (chunks : List String) (cache : List (CacheKey × String)) (i : Nat) (err : String),
      i < chunks.length →
      pc s.provider_choice (s.prompt ++ chunks.getD i "") = Except.error err →
      cacheLookup cache (mkKey s (chunks.getD i "")) = none →
      (process_chunks pc s chunks cache).1.getD i "" = "[Failed to process this chunk.]" := by
  intro chunks
  induction chunks with
  | nil =>
    intro cache i err hi herr hnone
    exact absurd hi (by simp)
  | cons chunk rest ih =>
    intro cache i err hi herr hnone
    match i with
    | 0 =>
      have hnone2 : cacheLookup cache (mkKey s chunk) = none := hnone
      have herr2 : pc (mkKey s chunk).provider_choice
          ((mkKey s chunk).prompt ++ (mkKey s chunk).chunk) = Except.error err := herr
      show ((match (get_cached_response pc cache (mkKey s chunk)).1 with
          | Except.ok v => v
          | Except.error _ => "[Failed to process this chunk.]")
        :: (process_chunks pc s rest (get_cached_response pc cache (mkKey s chunk)).2.1).1).getD 0 ""
          = "[Failed to process this chunk.]"
      unfold get_cached_response
      rw [hnone2, herr2]
      rfl
    | i + 1 =>
      have herr2 : pc s.provider_choice (s.prompt ++ rest.getD i "") = Except.error err := herr
      have hnone2 : cacheLookup cache (mkKey s (rest.getD i "")) = none := hnone
      have hi2 : i < rest.length := by
        simp only [List.length_cons] at hi
        omega
      show (process_chunks pc s rest (get_cached_response pc cache (mkKey s chunk)).2.1).1.getD i ""
          = "[Failed to process this chunk.]"
      apply ih _ i err hi2 herr2
      unfold get_cached_response
      match hlk : cacheLookup cache (mkKey s chunk) with
      | some v => exact hnone2
      | none =>
        match hpc : pc (mkKey s chunk).provider_choice
            ((mkKey s chunk).prompt ++ (mkKey s chunk).chunk) with
        | Except.ok v =>
          show (if mkKey s chunk = mkKey s (rest.getD i "") then some v
            else cacheLookup cache (mkKey s (rest.getD i ""))) = none
          rw [if_neg, hnone2]
          intro hkeq
          have hchunk : chunk = rest.getD i "" := congrArg CacheKey.chunk hkeq
          have hx : pc s.provider_choice (s.prompt ++ chunk) = Except.ok v := hpc
          rw [hchunk] at hx
          rw [herr2] at hx
          exact Except.noConfusion hx
        | Except.error e => exact hnone2

/-! ## Branch equations for the chunker -/

theorem split_words_eq (sentTok : String → List String) (text : String) (cs : Int) :
    split_text_into_chunks sentTok text cs "words" = split_groups (pySplit text) cs := by
  unfold split_text_into_chunks
  rw [if_pos rfl]

theorem split_sentences_eq (sentTok : String → List String) (text : String) (cs : Int) :
    split_text_into_chunks sentTok text cs "sentences" = split_groups (sentTok text) cs := by
  unfold split_text_into_chunks
  rw [if_neg (by decide), if_pos rfl]

theorem split_paragraphs_eq (sentTok : String → List String) (text : String) (cs : Int) :
    split_text_into_chunks sentTok text cs "paragraphs" = Except.ok (pySplitParas text) := by
  unfold split_text_into_chunks
  rw [if_neg (by decide), if_neg (by decide), if_pos rfl]

theorem split_groups_nil (S : Int) (hS : S ≠ 0) : split_groups [] S = Except.ok [] := by
  unfold split_groups
  rw [if_neg hS]
  by_cases hneg : S < 0
  · rw [if_pos hneg]
  · rw [if_neg hneg]
    have hpos : 1 ≤ S.toNat := by omega
    have h0 : (List.length ([] : List String) + S.toNat - 1) / S.toNat = 0 :=
      Nat.div_eq_of_lt (by simp only [List.length_nil]; omega)
    rw [h0]
    rfl

/-! ## Claim C2 -/

/-- C2: for every text `T` and every positive size `S`, words-mode
splitting yields exactly the space-joins of the runs of `S` whitespace
tokens of `T`, in order; their space-joined concatenation reconstructs
the whitespace-normalized token sequence of `T`; every run except
possibly the last has exactly `S` tokens; and no run exceeds `S` tokens
or is empty. -/
theorem c2_words_mode_reconstruction (sentTok : String → List String)
    (T : String) (S : Int) (hS : 1 ≤ S) :
    split_text_into_chunks sentTok T S "words"
      = Except.ok ((groupsOf S.toNat (pySplit T)).map (sjoin " "))
  ∧ sjoin " " ((groupsOf S.toNat (pySplit T)).map (sjoin " ")) = sjoin " " (pySplit T)
  ∧ (groupsOf S.toNat (pySplit T)).flatten = pySplit T
  ∧ ((groupsOf S.toNat (pySplit T)).dropLast).all (fun g => g.length == S.toNat) = true
  ∧ (groupsOf S.toNat (pySplit T)).all
      (fun g => decide (g.length ≤ S.toNat) && !g.isEmpty) = true := by
  have hnz : S ≠ 0 := by omega
  have hneg : ¬ S < 0 := by omega
  have hsn : 1 ≤ S.toNat := by omega
  have hne : ∀ g ∈ groupsOf S.toNat (pySplit T), g ≠ [] := by
    intro g hg
    have hall := (List.all_eq_true.mp (groupsOf_all S.toNat hsn (pySplit T))) g hg
    rcases Bool.and_eq_true_iff.mp hall with ⟨h1, h2⟩
    intro hnil
    subst hnil
    simp at h2
  refine ⟨?_, ?_, groupsOf_flatten _ hsn _, groupsOf_dropLast _ hsn _, groupsOf_all _ hsn _⟩
  · rw [split_words_eq]
    unfold split_groups
    rw [if_neg hnz, if_neg hneg]
    congr 1
    have hmm : (List.range (((pySplit T).length + S.toNat - 1) / S.toNat)).map
        (fun i => sjoin " " (((pySplit T).drop (i * S.toNat)).take S.toNat))
        = ((List.range (((pySplit T).length + S.toNat - 1) / S.toNat)).map
            (fun i => ((pySplit T).drop (i * S.toNat)).take S.toNat)).map (sjoin " ") := by
      rw [List.map_map]
      rfl
    rw [hmm, range_groups_eq_groupsOf S.toNat hsn (pySplit T)]
  · rw [sjoin_map_flatten " " _ hne, groupsOf_flatten _ hsn]

/-- C2 witness: the running example of the spec. -/
theorem c2_words_mode_reconstruction_witness :
    (1 : Int) ≤ 2
  ∧ split_text_into_chunks sentTokStub "a b c d e" 2 "words"
      = Except.ok ["a b", "c d", "e"]
  ∧ sjoin " " ["a b", "c d", "e"] = sjoin " " (pySplit "a b c d e") := by
  refine ⟨by decide, ?_, by rfl⟩
  rw [(c2_words_mode_reconstruction sentTokStub "a b c d e" 2 (by decide)).1]
  rfl

/-! ## Claim C6 -/

/-- C6 (amended): on empty text with a nonzero size, words mode and (for
a sentence tokenizer that maps the empty text to no sentences) sentences
mode yield zero chunks, but paragraphs mode yields exactly one chunk,
the empty string. -/
theorem c6_empty_text (sentTok : String → List String) (S : Int)
    (hTok : sentTok "" = []) (hS : S ≠ 0) :
    split_text_into_chunks sentTok "" S "words" = Except.ok []
  ∧ split_text_into_chunks sentTok "" S "sentences" = Except.ok []
  ∧ split_text_into_chunks sentTok "" S "paragraphs" = Except.ok [""] := by
  refine ⟨?_, ?_, split_paragraphs_eq sentTok "" S⟩
  · rw [split_words_eq]
    exact split_groups_nil S hS
  · rw [split_sentences_eq, hTok]
    exact split_groups_nil S hS

/-- C6 counterexample: paragraphs mode on the empty text yields one
(empty) chunk, not zero chunks. -/
theorem c6_counterexample :
    split_text_into_chunks sentTokStub "" 1 "paragraphs" = Except.ok [""]
  ∧ split_text_into_chunks sentTokStub "" 1 "paragraphs" ≠ Except.ok [] := by
  constructor
  · rw [split_paragraphs_eq]
    rfl
  · intro h
    have h2 : (Except.ok [] : Except String (List String)) = Except.ok [""] := by
      rw [← h, split_paragraphs_eq]
      rfl
    exact List.noConfusion (Except.ok.inj h2)

/-- C6 witness. -/
theorem c6_empty_text_witness :
    sentTokStub "" = [] ∧ (5 : Int) ≠ 0
  ∧ split_text_into_chunks sentTokStub "" 5 "words" = Except.ok []
  ∧ split_text_into_chunks sentTokStub "" 5 "sentences" = Except.ok []
  ∧ split_text_into_chunks sentTokStub "" 5 "paragraphs" = Except.ok [""] := by
  have h := c6_empty_text sentTokStub 5 rfl (by decide)
  exact ⟨rfl, by decide, h.1, h.2.1, h.2.2⟩

/-! ## Claim C8 -/

/-- C8 (amended): consuming the chunk generator raises no exception for
any text and any nonzero size (negative sizes silently yield zero chunks
in words/sentences mode), and never for paragraphs mode or an unknown
mode; only a zero size in words or sentences mode raises. -/
theorem c8_no_raise_for_nonzero_size (sentTok : String → List String)
    (text : String) (S : Int) (mode : String)
    (h : S ≠ 0 ∨ (mode ≠ "words" ∧ mode ≠ "sentences")) :
    isOkB (split_text_into_chunks sentTok text S mode) = true := by
  obtain ⟨cs, hcs⟩ := split_ok sentTok text S mode h
  rw [hcs]
  rfl

/-- C8 counterexample: a zero chunk size in words mode raises
`ValueError` from `range` when the generator is consumed. -/
theorem c8_counterexample :
    isOkB (split_text_into_chunks sentTokStub "alpha" 0 "words") = false
  ∧ split_text_into_chunks sentTokStub "alpha" 0 "words"
      = Except.error "range() arg 3 must not be zero" := by
  constructor
  · rfl
  · rw [split_words_eq]
    rfl

/-- C8 witness: a degenerate negative size does not raise. -/
theorem c8_no_raise_witness :
    ((-3 : Int) ≠ 0 ∨ ("words" ≠ "words" ∧ "words" ≠ "sentences"))
  ∧ isOkB (split_text_into_chunks sentTokStub "alpha beta" (-3) "words") = true :=
  ⟨Or.inl (by decide),
    c8_no_raise_for_nonzero_size sentTokStub "alpha beta" (-3) "words" (Or.inl (by decide))⟩

/-! ## Claim C3 -/

/-- C3: an operation that fails with a retryable error on every
invocation, under `max_retries = N ≥ 1`, is invoked exactly `N` times;
the wrapper returns the terminal marker `"[Failed to process this
chunk.]"` as an ordinary value and propagates no error. -/
theorem c3_retry_exhaustion (retryable : ε → Bool)
    (op : Nat → Except ε String) (N : Nat) (_hN : 1 ≤ N)
    (hfail : ∀ n, ∃ e, op n = Except.error e ∧ retryable e = true) :
    wrapper_retry retryable op N = (Except.ok "[Failed to process this chunk.]", N) := by
  unfold wrapper_retry
  rw [retry_go_all_fail retryable op hfail N 0, Nat.zero_add]

/-- C3 witness. -/
theorem c3_retry_exhaustion_witness :
    1 ≤ 3
  ∧ wrapper_retry (fun _ : String => true) (fun _ => Except.error "boom") 3
      = (Except.ok "[Failed to process this chunk.]", 3) :=
  ⟨by decide,
    c3_retry_exhaustion (fun _ : String => true) (fun _ => Except.error "boom") 3
      (by decide) (fun _ => ⟨"boom", rfl, rfl⟩)⟩

/-! ## Claim C4 -/

/-- C4: an operation that fails with retryable errors on its first `k`
invocations and succeeds on invocation `k + 1`, under `max_retries > k`,
makes the wrapper return the success value after exactly `k + 1`
invocations. -/
theorem c4_retry_then_success (retryable : ε → Bool)
    (op : Nat → Except ε String) (k N : Nat) (v : String) (hkN : k < N)
    (hfail : ∀ j, j < k → ∃ e, op j = Except.error e ∧ retryable e = true)
    (hok : op k = Except.ok v) :
    wrapper_retry retryable op N = (Except.ok v, k + 1) := by
  unfold wrapper_retry
  have h := retry_go_eventually_ok retryable op v k N 0 hkN
    (fun j hj => by simpa using hfail j hj) (by simpa using hok)
  simpa using h

/-- Provider stub that fails twice and then succeeds. -/
def opFlaky : Nat → Except String String :=
  fun n => if n < 2 then Except.error "transient" else Except.ok "SUCCESS"

/-- C4 witness. -/
theorem c4_retry_then_success_witness :
    2 < 5 ∧ wrapper_retry (fun _ : String => true) opFlaky 5 = (Except.ok "SUCCESS", 3) :=
  ⟨by decide,
    c4_retry_then_success (fun _ : String => true) opFlaky 2 5 "SUCCESS" (by decide)
      (fun j hj => ⟨"transient", by simp [opFlaky, hj], rfl⟩) rfl⟩

/-! ## Claim C10 -/

/-- C10: the failure marker is in-band: an operation that genuinely
succeeds on its first invocation with the string `"[Failed to process
this chunk.]"` is indistinguishable, by the wrapper's returned value,
from an operation that always fails with a retryable error. -/
theorem c10_in_band_marker :
    (wrapper_retry (fun _ : Unit => true)
        (fun _ => Except.ok "[Failed to process this chunk.]") 5).1
      = (wrapper_retry (fun _ : Unit => true) (fun _ => Except.error ()) 5).1
  ∧ (wrapper_retry (fun _ : Unit => true)
        (fun _ => Except.ok "[Failed to process this chunk.]") 5).1
      = Except.ok "[Failed to process this chunk.]" :=
  ⟨rfl, rfl⟩

/-! ## Claim C7 -/

/-- C7: code behaviour at the failing input.  A 200-status Anthropic
response with an absent `content` field raises `ValueError`, which is
not in `ANTHROPIC_EXCEPTIONS`: the decorated call propagates the error
to its caller after exactly one invocation instead of retrying up to the
configured bound of 10. -/
theorem c7_empty_response_not_retried :
    generate_with_anthropic (fun _ => ⟨200, none, ""⟩)
      = (Except.error (AnthropicExc.valueError "No content field in response."), 1)
  ∧ anthropic_retryable (AnthropicExc.valueError "No content field in response.") = false :=
  ⟨rfl, rfl⟩

/-! ## Claim C5 -/

theorem get_cached_hit (pc : String → String → Except String String)
    (cache : List (CacheKey × String)) (k : CacheKey) (v : String)
    (h : cacheLookup cache k = some v) :
    get_cached_response pc cache k = (Except.ok v, cache, 0) := by
  unfold get_cached_response
  rw [h]

theorem get_cached_miss_ok (pc : String → String → Except String String)
    (cache : List (CacheKey × String)) (k : CacheKey) (v : String)
    (h : cacheLookup cache k = none)
    (hpc : pc k.provider_choice (k.prompt ++ k.chunk) = Except.ok v) :
    get_cached_response pc cache k = (Except.ok v, (k, v) :: cache, 1) := by
  unfold get_cached_response
  rw [h, hpc]

theorem get_cached_miss_err (pc : String → String → Except String String)
    (cache : List (CacheKey × String)) (k : CacheKey) (e : String)
    (h : cacheLookup cache k = none)
    (hpc : pc k.provider_choice (k.prompt ++ k.chunk) = Except.error e) :
    get_cached_response pc cache k = (Except.error e, cache, 1) := by
  unfold get_cached_response
  rw [h, hpc]

theorem cacheLookup_head (k : CacheKey) (v : String) (cache : List (CacheKey × String)) :
    cacheLookup ((k, v) :: cache) k = some v := by
  unfold cacheLookup
  rw [if_pos rfl]

/-- C5 (amended): the cache key is the full argument tuple of
`get_cached_response` — provider, prompt, chunk, chunk size, model, and
api-keys dict.  A repeat call with the identical tuple, after a first
call that returned a value, hits the stored entry: it performs zero
provider computations, leaves the cache unchanged, and returns the first
call's value. -/
theorem c5_full_tuple_determines_entry (pc : String → String → Except String String)
    (cache : List (CacheKey × String)) (k : CacheKey) (v : String)
    (h : (get_cached_response pc cache k).1 = Except.ok v) :
    get_cached_response pc ((get_cached_response pc cache k).2.1) k
      = (Except.ok v, (get_cached_response pc cache k).2.1, 0) := by
  cases hlk : cacheLookup cache k with
  | some w =>
    rw [get_cached_hit pc cache k w hlk] at h ⊢
    have hw : w = v := Except.ok.inj h
    subst hw
    show get_cached_response pc cache k = (Except.ok w, cache, 0)
    exact get_cached_hit pc cache k w hlk
  | none =>
    cases hpc : pc k.provider_choice (k.prompt ++ k.chunk) with
    | ok w =>
      rw [get_cached_miss_ok pc cache k w hlk hpc] at h ⊢
      have hw : w = v := Except.ok.inj h
      subst hw
      show get_cached_response pc ((k, w) :: cache) k = (Except.ok w, (k, w) :: cache, 0)
      exact get_cached_hit pc _ k w (cacheLookup_head k w cache)
    | error e =>
      rw [get_cached_miss_err pc cache k e hlk hpc] at h
      have h2 : Except.error e = Except.ok v := h
      exact Except.noConfusion h2

/-- Provider stub returning a fixed response. -/
def pcConst : String → String → Except String String := fun _ _ => Except.ok "RESULT"

/-- Argument tuple of a first cached-response call. -/
def keyA : CacheKey := ⟨"OpenAI", "Summarize: ", "hello world", 500, some "gpt-4", []⟩

/-- Argument tuple agreeing with `keyA` on provider, prompt, chunk and
model, but with a different chunk size. -/
def keyB : CacheKey := ⟨"OpenAI", "Summarize: ", "hello world", 250, some "gpt-4", []⟩

/-- C5 counterexample: two cached-response calls agreeing on provider,
prompt, chunk text, and model — but differing in `chunk_size` — do not
resolve to the same cache entry: the second call runs the provider
computation once more instead of zero additional times. -/
theorem c5_counterexample :
    keyA.provider_choice = keyB.provider_choice
  ∧ keyA.prompt = keyB.prompt
  ∧ keyA.chunk = keyB.chunk
  ∧ keyA.model_choice = keyB.model_choice
  ∧ (get_cached_response pcConst ((get_cached_response pcConst [] keyA).2.1) keyB).2.2 = 1 :=
  ⟨rfl, rfl, rfl, rfl, rfl⟩

/-- C5 witness. -/
theorem c5_full_tuple_witness :
    (get_cached_response pcConst [] keyA).1 = Except.ok "RESULT"
  ∧ get_cached_response pcConst ((get_cached_response pcConst [] keyA).2.1) keyA
      = (Except.ok "RESULT", (get_cached_response pcConst [] keyA).2.1, 0) :=
  ⟨rfl, c5_full_tuple_determines_entry pcConst [] keyA "RESULT" rfl⟩

/-! ## Claim C1 -/

/-- C1: for a file processed by the orchestrator, when the chunk
generator yields `chunks` and every pre-existing cache entry agrees with
the (deterministic) provider, the finalized merged output is exactly the
per-chunk results joined with a single newline separator, in the order
the chunker emitted the chunks. -/
theorem c1_merged_output_order (pc : String → String → Except String String)
    (sentTok : String → List String) (s : Settings) (content : String)
    (cache : List (CacheKey × String)) (chunks : List String)
    (hchunks : split_text_into_chunks sentTok content s.chunk_size s.chunk_by
      = Except.ok chunks)
    (hcons : ∀ k v, cacheLookup cache k = some v →
      pc k.provider_choice (k.prompt ++ k.chunk) = Except.ok v) :
    process_file pc sentTok s content cache
      = Except.ok (sjoin "\n" (chunks.map (chunk_result pc s)),
          (process_chunks pc s chunks cache).2) := by
  rw [process_file_eq pc sentTok s content cache chunks hchunks,
    process_chunks_pure pc s chunks cache hcons]

/-- Echo provider stub: returns `"ECHO:"` followed by the combined
prompt-plus-chunk it was given. -/
def pcEcho : String → String → Except String String :=
  fun _ combined => Except.ok ("ECHO:" ++ combined)

/-- Settings of the end-to-end echo scenario: empty prompt, chunk size 2,
words mode. -/
def sEcho : Settings := ⟨"OpenAI", "", 2, "words", some "gpt-4", []⟩

/-- C1 witness: the spec's end-to-end scenario — one file `"a b c d e"`,
chunk size 2, words mode, echo provider — merges to
`"ECHO:a b\nECHO:c d\nECHO:e"`. -/
theorem c1_merged_output_order_witness :
    split_text_into_chunks sentTokStub "a b c d e" sEcho.chunk_size sEcho.chunk_by
      = Except.ok ["a b", "c d", "e"]
  ∧ process_file pcEcho sentTokStub sEcho "a b c d e" []
      = Except.ok ("ECHO:a b\nECHO:c d\nECHO:e",
          (process_chunks pcEcho sEcho ["a b", "c d", "e"] []).2) := by
  constructor
  · rfl
  · rw [c1_merged_output_order pcEcho sentTokStub sEcho "a b c d e" [] ["a b", "c d", "e"]
      rfl (fun k v h => Option.noConfusion h)]
    rfl

/-! ## Claim C9 -/

/-- C9: with a nonzero chunk size the pipeline yields one merged output
per file (it never aborts because a chunk failed); the per-chunk loop
yields one result per chunk; and a chunk whose provider computation
raises (and is not pre-seeded in the cache) contributes exactly the
placeholder `"[Failed to process this chunk.]"` at its position. -/
theorem c9_placeholder_and_continuation (pc : String → String → Except String String)
    (sentTok : String → List String) (s : Settings)
    (files : List String) (cache : List (CacheKey × String))
    (chunks : List String) (cache0 : List (CacheKey × String)) (i : Nat) (err : String)
    (hS : s.chunk_size ≠ 0)
    (hi : i < chunks.length)
    (herr : pc s.provider_choice (s.prompt ++ chunks.getD i "") = Except.error err)
    (hnone : cacheLookup cache0 (mkKey s (chunks.getD i "")) = none) :
    resultsLen (process_files pc sentTok s files cache) = some files.length
  ∧ (process_chunks pc s chunks cache0).1.length = chunks.length
  ∧ (process_chunks pc s chunks cache0).1.getD i "" = "[Failed to process this chunk.]" :=
  ⟨process_files_ok pc sentTok s hS files cache,
   process_chunks_length pc s chunks cache0,
   process_chunks_failed pc s chunks cache0 i err hi herr hnone⟩

/-- Provider stub that always raises. -/
def pcFail : String → String → Except String String := fun _ _ => Except.error "boom"

/-- Settings of the failure scenario. -/
def sFail : Settings := ⟨"Anthropic", "P: ", 2, "words", none, []⟩

/-- C9 witness: a one-file run whose provider always raises still yields
one complete merged output, with a placeholder at every chunk position. -/
theorem c9_placeholder_witness :
    resultsLen (process_files pcFail sentTokStub sFail ["a b c d e"] []) = some 1
  ∧ (process_chunks pcFail sFail ["a b", "c d", "e"] []).1.length = 3
  ∧ (process_chunks pcFail sFail ["a b", "c d", "e"] []).1.getD 1 ""
      = "[Failed to process this chunk.]" := by
  have h := c9_placeholder_and_continuation pcFail sentTokStub sFail ["a b c d e"] []
    ["a b", "c d", "e"] [] 1 "boom" (by decide) (by decide) rfl rfl
  exact ⟨h.1, h.2.1, h.2.2⟩
